import Mathlib

/-!
Verification of the time-string parsing, formatting, probing, naming,
validation and confirmation logic of `src/app.py` (an interactive
audio/video cutting front-end).

Shallow embedding conventions:
* Python strings are Lean `String`s / `List Char` (ASCII-level model).
* Python floats are modelled by `PyF`: an exact rational (`fin`), a signed
  infinity, or `nan`.  Binary rounding and overflow of IEEE doubles are
  abstracted away; `float("...")` of a decimal literal is the exact rational.
* Fallible operations return `Option` / `Except`; a raised Python exception
  that escapes a function is an `Except.error`.
* External subprocess outcomes are inputs of the model (an outcome value or
  a `run` function argument).
-/

/-- Model of a Python `float` value: finite rational, signed infinity, or nan. -/
inductive PyF where
  | fin (q : ℚ)
  | inf (neg : Bool)
  | nan
deriving DecidableEq

/-- `x * k` for a positive literal constant `k` (the source multiplies
components by `60` and `3600`). -/
def PyF.scaleMul (x : PyF) (k : ℚ) : PyF :=
  match x with
  | .fin q => .fin (q * k)
  | .inf s => .inf s
  | .nan => .nan

/-- IEEE-style addition on modelled floats. -/
def PyF.add (x y : PyF) : PyF :=
  match x, y with
  | .nan, _ => .nan
  | _, .nan => .nan
  | .fin a, .fin b => .fin (a + b)
  | .inf s, .fin _ => .inf s
  | .fin _, .inf s => .inf s
  | .inf s, .inf t => if s = t then .inf s else .nan

/-- IEEE-style `<` on modelled floats (`nan` compares false). -/
def PyF.ltb (x y : PyF) : Bool :=
  match x, y with
  | .nan, _ => false
  | _, .nan => false
  | .fin a, .fin b => a < b
  | .inf s, .fin _ => s
  | .fin _, .inf s => !s
  | .inf s, .inf t => s && !t

/-- IEEE-style `≤` on modelled floats (`nan` compares false). -/
def PyF.leb (x y : PyF) : Bool :=
  match x, y with
  | .nan, _ => false
  | _, .nan => false
  | .fin a, .fin b => a ≤ b
  | .inf s, .fin _ => s
  | .fin _, .inf s => !s
  | .inf s, .inf t => s || !t

/- Character classes, by ASCII code (the model is ASCII-level). -/

/-- Python `str.strip` whitespace: space, \t, \n, \v, \f, \r. -/
def isPySpace (c : Char) : Bool :=
  c.toNat = 32 || c.toNat = 9 || c.toNat = 10 ||
  c.toNat = 11 || c.toNat = 12 || c.toNat = 13

/-- ASCII decimal digit `0`-`9`. -/
def isDig (c : Char) : Bool := 48 ≤ c.toNat && c.toNat ≤ 57

/-- ASCII lowercasing, as Python `str.lower` acts on ASCII letters. -/
def toLowerCh (c : Char) : Char :=
  if 65 ≤ c.toNat ∧ c.toNat ≤ 90 then Char.ofNat (c.toNat + 32) else c

/-- `l.strip()` : drop leading and trailing whitespace. -/
def pyStrip (l : List Char) : List Char :=
  ((l.dropWhile isPySpace).reverse.dropWhile isPySpace).reverse

/-- Numeric value of a digit character. -/
def digitVal (c : Char) : ℕ := c.toNat - 48

/-- Accumulating decimal value of a digit string. -/
def digitsValAux : ℕ → List Char → ℕ
  | acc, [] => acc
  | acc, c :: cs => digitsValAux (10 * acc + digitVal c) cs

/-- Decimal value of a digit string (leading zeros allowed). -/
def digitsVal (l : List Char) : ℕ := digitsValAux 0 l

/-- The decimal digit character for `n < 10`. -/
def digitChar10 : ℕ → Char
  | 0 => '0' | 1 => '1' | 2 => '2' | 3 => '3' | 4 => '4'
  | 5 => '5' | 6 => '6' | 7 => '7' | 8 => '8' | 9 => '9'
  | _ => '*'

/-- Decimal digit string of `n`, fuel-driven so that it reduces by `decide`. -/
def natDigitsAux : ℕ → ℕ → List Char
  | 0, _ => []
  | fuel + 1, n =>
    if n < 10 then [digitChar10 n]
    else natDigitsAux fuel (n / 10) ++ [digitChar10 (n % 10)]

/-- Decimal digit string of `n` (no sign, no padding). -/
def digitsOf (n : ℕ) : List Char := natDigitsAux (n + 1) n

/-- Left-pad with `0` to width `w`, as Python `{:0wd}` does. -/
def leftPad (w : ℕ) (l : List Char) : List Char :=
  List.replicate (w - l.length) '0' ++ l

/- ## Model of Python `float(str)` -/

/-- The discrete content of a decimal float literal:
`(-1)^neg * (intVal + fracVal/10^fracLen) * 10^(±expVal)`. -/
structure FloatParts where
  intVal : ℕ
  fracVal : ℕ
  fracLen : ℕ
  expNeg : Bool
  expVal : ℕ
deriving DecidableEq

/-- Outcome of scanning a `float()` argument: a decimal number with its sign,
an infinity, or a nan. -/
inductive ScanOut where
  | num (neg : Bool) (p : FloatParts)
  | pinf (neg : Bool)
  | pnan
deriving DecidableEq

/-- Strip an optional leading sign, as `float()` does; `true` means negative. -/
def splitSign (l : List Char) : Bool × List Char :=
  match l with
  | [] => (false, [])
  | c :: rest =>
    if c.toNat = 45 then (true, rest)        -- '-'
    else if c.toNat = 43 then (false, rest)  -- '+'
    else (false, l)

/-- CPython underscore rule (PEP 515): every `_` must sit between two digits.
`prev` is the previous character, if any. -/
def underscoresOK (prev : Option Char) : List Char → Bool
  | [] => true
  | c :: rest =>
    if c.toNat = 95 then                     -- '_'
      (match prev with | some p => isDig p | none => false) &&
      (match rest with | d :: _ => isDig d | [] => false) &&
      underscoresOK (some c) rest
    else underscoresOK (some c) rest

/-- Scan the exponent tail after `e`/`E`: optional sign, then digits to the end. -/
def scanExp (iv fv fl : ℕ) (l : List Char) : Option FloatParts :=
  let (eneg, l1) := splitSign l
  let ed := l1.takeWhile isDig
  let rest := l1.dropWhile isDig
  if ed.isEmpty || !rest.isEmpty then none
  else some ⟨iv, fv, fl, eneg, digitsVal ed⟩

/-- Scan an unsigned decimal literal `digits [. digits] [(e|E) [sign] digits]`
(with at least one mantissa digit), the grammar accepted by `float()`. -/
def scanMantissa (l : List Char) : Option FloatParts :=
  let ip := l.takeWhile isDig
  let r1 := l.dropWhile isDig
  match r1 with
  | [] => if ip.isEmpty then none else some ⟨digitsVal ip, 0, 0, false, 0⟩
  | c :: r2 =>
    if c.toNat = 46 then                     -- '.'
      let fp := r2.takeWhile isDig
      let r3 := r2.dropWhile isDig
      if ip.isEmpty && fp.isEmpty then none
      else
        match r3 with
        | [] => some ⟨digitsVal ip, digitsVal fp, fp.length, false, 0⟩
        | d :: r4 =>
          if d.toNat = 101 || d.toNat = 69 then  -- 'e' | 'E'
            scanExp (digitsVal ip) (digitsVal fp) fp.length r4
          else none
    else if (c.toNat = 101 || c.toNat = 69) && !ip.isEmpty then
      scanExp (digitsVal ip) 0 0 r2
    else none

/-- Discrete part of `float(str)`: strip, take the sign, recognise
`inf`/`infinity`/`nan` (case-insensitively), enforce the underscore rule,
drop underscores, and scan the decimal literal. -/
def pyScanFloat (l : List Char) : Option ScanOut :=
  let t := pyStrip l
  let (neg, body) := splitSign t
  let lw := body.map toLowerCh
  if lw = ['i', 'n', 'f'] || lw = ['i', 'n', 'f', 'i', 'n', 'i', 't', 'y'] then
    some (.pinf neg)
  else if lw = ['n', 'a', 'n'] then some .pnan
  else if !underscoresOK none body then none
  else
    match scanMantissa (body.filter (fun c => !(c.toNat = 95 : Bool))) with
    | some p => some (.num neg p)
    | none => none

/-- Rational value of a scanned decimal literal. -/
def partsVal (p : FloatParts) : ℚ :=
  let m : ℚ := (p.intVal : ℚ) + (p.fracVal : ℚ) / 10 ^ p.fracLen
  if p.expNeg then m / 10 ^ p.expVal else m * 10 ^ p.expVal

/-- Model of Python `float(str)`: `none` models a raised `ValueError`. -/
def pythonFloat (l : List Char) : Option PyF :=
  match pyScanFloat l with
  | none => none
  | some (.num neg p) => some (.fin (if neg then -partsVal p else partsVal p))
  | some (.pinf neg) => some (.inf neg)
  | some .pnan => some .nan

/- ## `parse_time` (src/app.py lines 24-47) -/

/-- Python `str.split(':')` on a character list. -/
def splitCols : List Char → List (List Char)
  | [] => [[]]
  | c :: cs =>
    if c.toNat = 58 then [] :: splitCols cs  -- ':'
    else
      match splitCols cs with
      | [] => [[c]]
      | p :: ps => (c :: p) :: ps

/-- The regex `^\d+(\.\d+)?$` from `parse_time` (ASCII digits). -/
def bareMatch (l : List Char) : Bool :=
  let ip := l.takeWhile isDig
  let r := l.dropWhile isDig
  !ip.isEmpty &&
    (r.isEmpty ||
      match r with
      | c :: fr => if c.toNat = 46 then !fr.isEmpty && fr.all isDig else false
      | [] => false)

/-- `parse_time` on the stripped character list: bare decimal means seconds;
`M:S` and `H:M:S` apply positional weights; anything else raises
(`none`). -/
def parseTimeChars (l : List Char) : Option PyF :=
  if bareMatch l then pythonFloat l
  else
    match (splitCols l).map pythonFloat with
    | [some m, some s] => some ((m.scaleMul 60).add s)
    | [some h, some m, some s] =>
      some (((h.scaleMul 3600).add (m.scaleMul 60)).add s)
    | _ => none

/-- `parse_time(time_str)` from src/app.py; `none` models a raised
`ValueError`. -/
def parse_time (s : String) : Option PyF := parseTimeChars (pyStrip s.data)

/- ## `format_time` (src/app.py lines 49-54) -/

/-- Python `%` on numbers (sign follows the divisor, here positive). -/
def pyMod (a b : ℚ) : ℚ := a - b * ⌊a / b⌋

/-- Python `f"{n:02d}"`. -/
def intPad2 (n : ℤ) : List Char :=
  if n < 0 then '-' :: leftPad 1 (digitsOf (-n).toNat)
  else leftPad 2 (digitsOf n.toNat)

/-- Render `s3` thousandths as `f"{s3/1000:06.3f}"` renders the number. -/
def fmt63Z (s3 : ℤ) : List Char :=
  if s3 < 0 then
    '-' :: (leftPad 1 (digitsOf ((-s3).toNat / 1000)) ++
      '.' :: leftPad 3 (digitsOf ((-s3).toNat % 1000)))
  else
    leftPad 2 (digitsOf (s3.toNat / 1000)) ++
      '.' :: leftPad 3 (digitsOf (s3.toNat % 1000))

/-- Python `f"{q:06.3f}"`: round to 3 decimals, then render. -/
def ratFmt63 (q : ℚ) : List Char := fmt63Z (round (q * 1000))

/-- Character list of `format_time(seconds)`:
`f"{hours:02d}:{minutes:02d}:{secs:06.3f}"`. -/
def fmtChars (x : ℚ) : List Char :=
  intPad2 ⌊x / 3600⌋ ++ ':' :: intPad2 ⌊pyMod x 3600 / 60⌋ ++
    ':' :: ratFmt63 (pyMod x 60)

/-- `format_time(seconds)` from src/app.py. -/
def format_time (x : ℚ) : String := String.mk (fmtChars x)

/- ## `get_media_duration` (src/app.py lines 56-66) -/

/-- Outcome of the external `ffprobe` invocation.  `toolMissing` models the
`FileNotFoundError` raised by `subprocess.run` when the executable is absent
(an exception `get_media_duration` does not catch); `ran` models a completed
process with its exit status and captured streams. -/
inductive ProbeOutcome where
  | toolMissing
  | ran (returncode : ℤ) (stdout : String) (stderr : String)

/-- `get_media_duration(file_path)`.  With `check=True`, a non-zero exit
status raises `CalledProcessError`, which is caught and mapped to `None`, as
is the `ValueError` from `float` on non-numeric output; a missing tool
raises `FileNotFoundError`, which is not caught (`Except.error`). -/
def get_media_duration : ProbeOutcome → Except String (Option PyF)
  | .toolMissing => .error "FileNotFoundError"
  | .ran rc out _ =>
    if rc = 0 then
      match pythonFloat (pyStrip out.data) with
      | some v => .ok (some v)
      | none => .ok none
    else .ok none

/- ## `cut_media` (src/app.py lines 68-94) -/

/-- Outcome of the external `ffmpeg` invocation inside `cut_media`'s `try`
block: either some exception was raised (with its `str(e)` text), or the
process completed with an exit status and captured streams. -/
inductive CutOutcome where
  | raised (msg : String)
  | ran (returncode : ℤ) (stdout : String) (stderr : String)

/-- The argument list `cut_media` builds for `ffmpeg`. -/
def buildCutCmd (input output : String) (startT endT : ℚ) : List String :=
  ["ffmpeg", "-i", input,
   "-ss", format_time startT,
   "-t", format_time (endT - startT),
   "-c", "copy",
   "-avoid_negative_ts", "make_zero",
   output, "-y"]

/-- `cut_media(input_path, output_path, start_time, end_time)`: returns
`(True, "Success")` on exit status `0`, `(False, stderr)` otherwise, and
`(False, str(e))` when an exception is raised; the `except Exception`
clause means no exception escapes. -/
def cut_media (run : List String → CutOutcome) (input output : String)
    (startT endT : ℚ) : Bool × String :=
  match run (buildCutCmd input output startT endT) with
  | .raised m => (false, m)
  | .ran rc _ err => if rc = 0 then (true, "Success") else (false, err)

/- ## `get_output_filename` (src/app.py lines 96-105) -/

/-- `pathlib.PurePath.name`: the final component, ignoring trailing
slashes. -/
def pathNameOf (p : List Char) : List Char :=
  let t := (p.reverse.dropWhile (fun c => c.toNat = 47)).reverse   -- '/'
  (t.reverse.takeWhile (fun c => !(c.toNat = 47 : Bool))).reverse

/-- `pathlib` stem/suffix split of a file name: the suffix starts at the
last dot, provided that dot is neither the first nor the last character. -/
def stemSuffix (name : List Char) : List Char × List Char :=
  let revTail := name.reverse.takeWhile (fun c => !(c.toNat = 46 : Bool))
  if revTail.length = name.length then (name, [])
  else
    let i := name.length - revTail.length - 1
    if 0 < i ∧ 0 < revTail.length then (name.take i, name.drop i)
    else (name, [])

/-- `str.replace(':', '-')`. -/
def colonToDash (l : List Char) : List Char :=
  l.map (fun c => if c.toNat = 58 then '-' else c)

/-- `get_output_filename(input_path, start_time, end_time)` from
src/app.py. -/
def get_output_filename (input_path : String) (startT endT : ℚ) : String :=
  let nm := pathNameOf input_path.data
  String.mk ((stemSuffix nm).1 ++ "_cut_".data ++
    colonToDash (fmtChars startT) ++ "_to_".data ++
    colonToDash (fmtChars endT) ++ (stemSuffix nm).2)

/- ## Interaction-loop validation (src/app.py lines 136-198) -/

/-- Python truthiness of `total_duration` at lines 139, 157 and 179:
`None` and `0.0` are falsy, every other float (including nan and the
infinities) is truthy. -/
def truthy : Option PyF → Bool
  | none => false
  | some (.fin q) => !(q = 0 : Bool)
  | some (.inf _) => true
  | some .nan => true

/-- Whether `if total_duration:` prints the probed duration (line 139). -/
def durationReported (total : Option PyF) : Bool := truthy total

/-- The short-circuit test `total_duration and v >= total_duration`. -/
def startBoundHit (total : Option PyF) (v : PyF) : Bool :=
  truthy total &&
    (match total with
     | some d => d.leb v
     | none => false)

/-- The short-circuit test `total_duration and v > total_duration`. -/
def endBoundHit (total : Option PyF) (v : PyF) : Bool :=
  truthy total &&
    (match total with
     | some d => d.ltb v
     | none => false)

/-- One iteration of the start-time loop (lines 145-164): `true` means the
raw input is accepted (the loop breaks), `false` means it is re-prompted. -/
def startAccepted (total : Option PyF) (raw : String) : Bool :=
  let t := pyStrip raw.data
  if t.isEmpty then false
  else
    match parseTimeChars t with
    | none => false
    | some v =>
      if v.ltb (.fin 0) then false
      else if startBoundHit total v then false
      else true

/-- One iteration of the end-time loop (lines 167-186), given the accepted
start value. -/
def endAccepted (total : Option PyF) (startV : PyF) (raw : String) : Bool :=
  let t := pyStrip raw.data
  if t.isEmpty then false
  else
    match parseTimeChars t with
    | none => false
    | some v =>
      if v.leb startV then false
      else if endBoundHit total v then false
      else true

/- ## Confirmation and exit (src/app.py lines 195-210) -/

/-- The confirmation test `confirm in ['y', 'yes']` after
`.strip().lower()`. -/
def confirmProceeds (raw : String) : Bool :=
  let c := (pyStrip raw.data).map toLowerCh
  c = "y".data || c = "yes".data

/-- The tail of `main` from the confirmation prompt on: returns the exit
code and whether the external cut was invoked. -/
def confirmAndCut (confirmRaw : String) (run : List String → CutOutcome)
    (input output : String) (startT endT : ℚ) : ℤ × Bool :=
  if confirmProceeds confirmRaw then
    let r := cut_media run input output startT endT
    if r.1 then (0, true) else (1, true)
  else (0, false)

/- ## Digit-string lemmas -/

theorem digitsValAux_nil (acc : ℕ) : digitsValAux acc [] = acc := rfl

theorem digitsValAux_cons (acc : ℕ) (c : Char) (cs : List Char) :
    digitsValAux acc (c :: cs) = digitsValAux (10 * acc + digitVal c) cs := rfl

theorem natDigitsAux_zero (n : ℕ) : natDigitsAux 0 n = [] := rfl

theorem natDigitsAux_succ (f n : ℕ) :
    natDigitsAux (f + 1) n =
      if n < 10 then [digitChar10 n]
      else natDigitsAux f (n / 10) ++ [digitChar10 (n % 10)] := rfl

theorem digitsValAux_eq (l : List Char) :
    ∀ acc, digitsValAux acc l = acc * 10 ^ l.length + digitsVal l := by
  induction l with
  | nil => intro acc; simp [digitsValAux_nil, digitsVal]
  | cons c cs ih =>
    intro acc
    rw [digitsValAux_cons, ih]
    have h2 : digitsVal (c :: cs) = digitsValAux (10 * 0 + digitVal c) cs := rfl
    rw [h2, ih]
    simp [List.length_cons, pow_succ]
    ring

theorem digitsVal_append (a b : List Char) :
    digitsVal (a ++ b) = digitsVal a * 10 ^ b.length + digitsVal b := by
  have haux : ∀ (l : List Char) (acc : ℕ),
      digitsValAux acc (l ++ b) = digitsValAux (digitsValAux acc l) b := by
    intro l
    induction l with
    | nil => intro acc; simp [digitsValAux_nil]
    | cons c cs ih =>
      intro acc
      rw [List.cons_append, digitsValAux_cons, digitsValAux_cons, ih]
  show digitsValAux 0 (a ++ b) = _
  rw [haux, digitsValAux_eq b (digitsValAux 0 a)]
  rfl

theorem digitsVal_replicate_zero (k : ℕ) :
    digitsVal (List.replicate k '0') = 0 := by
  induction k with
  | zero => rfl
  | succ n ih =>
    show digitsValAux 0 (List.replicate (n + 1) '0') = 0
    rw [List.replicate_succ, digitsValAux_cons]
    have h0 : 10 * 0 + digitVal '0' = 0 := by decide
    rw [h0]
    exact ih

theorem digitsVal_leftPad (w : ℕ) (l : List Char) :
    digitsVal (leftPad w l) = digitsVal l := by
  rw [leftPad, digitsVal_append, digitsVal_replicate_zero]
  simp

theorem digitChar10_toNat {k : ℕ} (h : k < 10) :
    (digitChar10 k).toNat = 48 + k := by
  interval_cases k <;> decide

theorem isDig_digitChar10 {k : ℕ} (h : k < 10) :
    isDig (digitChar10 k) = true := by
  interval_cases k <;> decide

theorem digitVal_digitChar10 {k : ℕ} (h : k < 10) :
    digitVal (digitChar10 k) = k := by
  interval_cases k <;> decide

theorem natDigitsAux_val : ∀ fuel n, n < fuel →
    digitsVal (natDigitsAux fuel n) = n := by
  intro fuel
  induction fuel with
  | zero => intro n h; omega
  | succ f ih =>
    intro n h
    by_cases h10 : n < 10
    · rw [natDigitsAux_succ, if_pos h10]
      show digitsValAux 0 [digitChar10 n] = n
      rw [digitsValAux_cons, digitsValAux_nil]
      simp [digitVal_digitChar10 h10]
    · rw [natDigitsAux_succ, if_neg h10]
      rw [digitsVal_append, ih (n / 10) (by omega)]
      have hm : n % 10 < 10 := Nat.mod_lt _ (by omega)
      have : digitsVal [digitChar10 (n % 10)] = n % 10 := by
        show digitsValAux 0 [digitChar10 (n % 10)] = n % 10
        rw [digitsValAux_cons, digitsValAux_nil]
        simp [digitVal_digitChar10 hm]
      rw [this]
      simp
      omega

theorem natDigitsAux_all_dig : ∀ fuel n, n < fuel →
    ∀ c ∈ natDigitsAux fuel n, isDig c = true := by
  intro fuel
  induction fuel with
  | zero => intro n h; omega
  | succ f ih =>
    intro n h c hc
    by_cases h10 : n < 10
    · rw [natDigitsAux_succ, if_pos h10] at hc
      simp at hc
      rw [hc]
      exact isDig_digitChar10 h10
    · rw [natDigitsAux_succ, if_neg h10] at hc
      rcases List.mem_append.mp hc with h1 | h2
      · exact ih (n / 10) (by omega) c h1
      · simp at h2
        rw [h2]
        exact isDig_digitChar10 (Nat.mod_lt _ (by omega))

theorem natDigitsAux_ne_nil : ∀ fuel n, n < fuel →
    natDigitsAux fuel n ≠ [] := by
  intro fuel
  induction fuel with
  | zero => intro n h; omega
  | succ f _ =>
    intro n _
    by_cases h10 : n < 10
    · rw [natDigitsAux_succ, if_pos h10]; simp
    · rw [natDigitsAux_succ, if_neg h10]; simp

theorem natDigitsAux_len_le : ∀ fuel n k, n < fuel → n < 10 ^ k → 1 ≤ k →
    (natDigitsAux fuel n).length ≤ k := by
  intro fuel
  induction fuel with
  | zero => intro n k h; omega
  | succ f ih =>
    intro n k h hk h1
    by_cases h10 : n < 10
    · rw [natDigitsAux_succ, if_pos h10]
      simpa using h1
    · rw [natDigitsAux_succ, if_neg h10]
      have hk2 : 2 ≤ k := by
        by_contra hc
        have : k = 1 := by omega
        rw [this] at hk
        simp at hk
        omega
      have hdiv : n / 10 < 10 ^ (k - 1) := by
        have h2 : 10 ^ k = 10 ^ (k - 1) * 10 := by
          rw [← pow_succ]
          congr 1
          omega
        rw [h2] at hk
        omega
      have := ih (n / 10) (k - 1) (by omega) hdiv (by omega)
      simp [List.length_append]
      omega

theorem digitsVal_digitsOf (n : ℕ) : digitsVal (digitsOf n) = n :=
  natDigitsAux_val (n + 1) n (Nat.lt_succ_self n)

theorem digitsOf_all_dig (n : ℕ) : ∀ c ∈ digitsOf n, isDig c = true :=
  natDigitsAux_all_dig (n + 1) n (Nat.lt_succ_self n)

theorem digitsOf_ne_nil (n : ℕ) : digitsOf n ≠ [] :=
  natDigitsAux_ne_nil (n + 1) n (Nat.lt_succ_self n)

theorem digitsOf_len_le {n k : ℕ} (hk : n < 10 ^ k) (h1 : 1 ≤ k) :
    (digitsOf n).length ≤ k :=
  natDigitsAux_len_le (n + 1) n k (Nat.lt_succ_self n) hk h1

theorem leftPad_length {w : ℕ} {l : List Char} (h : l.length ≤ w) :
    (leftPad w l).length = w := by
  simp [leftPad]
  omega

theorem leftPad_ne_nil {w : ℕ} {l : List Char} (h : l ≠ []) :
    leftPad w l ≠ [] := by
  intro hc
  exact h (List.append_eq_nil.mp hc).2

theorem leftPad_all_dig {w : ℕ} {l : List Char}
    (h : ∀ c ∈ l, isDig c = true) : ∀ c ∈ leftPad w l, isDig c = true := by
  intro c hc
  rcases List.mem_append.mp hc with h1 | h2
  · have := List.eq_of_mem_replicate h1
    rw [this]
    decide
  · exact h c h2

theorem digitsVal_leftPad_digitsOf (w n : ℕ) :
    digitsVal (leftPad w (digitsOf n)) = n := by
  rw [digitsVal_leftPad, digitsVal_digitsOf]

/- ## Character-class and scanning lemmas -/

theorem isDig_bounds {c : Char} (h : isDig c = true) :
    48 ≤ c.toNat ∧ c.toNat ≤ 57 := by
  simp [isDig] at h
  exact h

theorem isDig_not_space {c : Char} (h : isDig c = true) :
    isPySpace c = false := by
  obtain ⟨h1, h2⟩ := isDig_bounds h
  simp [isPySpace]
  omega

theorem toLowerCh_fix {c : Char} (h : c.toNat < 65 ∨ 90 < c.toNat) :
    toLowerCh c = c := by
  rw [toLowerCh, if_neg]
  omega

theorem toLowerCh_of_dig {c : Char} (h : isDig c = true) : toLowerCh c = c := by
  obtain ⟨h1, h2⟩ := isDig_bounds h
  exact toLowerCh_fix (by omega)

theorem dropWhile_no {p : Char → Bool} {l : List Char}
    (h : ∀ c ∈ l, p c = false) : l.dropWhile p = l := by
  cases l with
  | nil => rfl
  | cons c cs =>
    rw [List.dropWhile_cons, if_neg]
    simp [h c (by simp)]

theorem takeWhile_all {p : Char → Bool} {l : List Char}
    (h : ∀ c ∈ l, p c = true) : l.takeWhile p = l := by
  induction l with
  | nil => rfl
  | cons c cs ih =>
    rw [List.takeWhile_cons, if_pos (h c (by simp))]
    rw [ih (fun d hd => h d (by simp [hd]))]

theorem dropWhile_all {p : Char → Bool} {l : List Char}
    (h : ∀ c ∈ l, p c = true) : l.dropWhile p = [] := by
  induction l with
  | nil => rfl
  | cons c cs ih =>
    rw [List.dropWhile_cons, if_pos (h c (by simp))]
    exact ih (fun d hd => h d (by simp [hd]))

theorem takeWhile_append_of {p : Char → Bool} {A : List Char} {c0 : Char}
    {R : List Char} (hA : ∀ c ∈ A, p c = true) (hc : p c0 = false) :
    (A ++ c0 :: R).takeWhile p = A := by
  induction A with
  | nil => simp [List.takeWhile_cons, hc]
  | cons a A' ih =>
    rw [List.cons_append, List.takeWhile_cons, if_pos (hA a (by simp))]
    rw [ih (fun d hd => hA d (by simp [hd]))]

theorem dropWhile_append_of {p : Char → Bool} {A : List Char} {c0 : Char}
    {R : List Char} (hA : ∀ c ∈ A, p c = true) (hc : p c0 = false) :
    (A ++ c0 :: R).dropWhile p = c0 :: R := by
  induction A with
  | nil => simp [List.dropWhile_cons, hc]
  | cons a A' ih =>
    rw [List.cons_append, List.dropWhile_cons, if_pos (hA a (by simp))]
    exact ih (fun d hd => hA d (by simp [hd]))

theorem pyStrip_eq_self {l : List Char}
    (h : ∀ c ∈ l, isPySpace c = false) : pyStrip l = l := by
  rw [pyStrip, dropWhile_no h]
  rw [dropWhile_no (fun c hc => h c (List.mem_reverse.mp hc))]
  exact List.reverse_reverse l

theorem splitCols_nil : splitCols [] = [[]] := rfl

theorem splitCols_cons (c : Char) (cs : List Char) :
    splitCols (c :: cs) =
      if c.toNat = 58 then [] :: splitCols cs
      else
        match splitCols cs with
        | [] => [[c]]
        | p :: ps => (c :: p) :: ps := rfl

theorem splitCols_ne_nil (l : List Char) : splitCols l ≠ [] := by
  cases l with
  | nil => simp [splitCols_nil]
  | cons c cs =>
    rw [splitCols_cons]
    by_cases h : c.toNat = 58
    · simp [h]
    · rw [if_neg h]
      rcases hs : splitCols cs with _ | ⟨p, ps⟩ <;> simp

theorem splitCols_no_colon {l : List Char}
    (h : ∀ c ∈ l, c.toNat ≠ 58) : splitCols l = [l] := by
  induction l with
  | nil => rfl
  | cons c cs ih =>
    rw [splitCols_cons, if_neg (h c (by simp))]
    rw [ih (fun d hd => h d (by simp [hd]))]

theorem splitCols_append {A : List Char} {c0 : Char} {R : List Char}
    (hA : ∀ c ∈ A, c.toNat ≠ 58) (hc : c0.toNat = 58) :
    splitCols (A ++ c0 :: R) = A :: splitCols R := by
  induction A with
  | nil => simp [splitCols_cons, hc]
  | cons a A' ih =>
    rw [List.cons_append, splitCols_cons, if_neg (hA a (by simp))]
    rw [ih (fun d hd => hA d (by simp [hd]))]

theorem splitSign_cons (c : Char) (rest : List Char) :
    splitSign (c :: rest) =
      if c.toNat = 45 then (true, rest)
      else if c.toNat = 43 then (false, rest)
      else (false, c :: rest) := rfl

theorem splitSign_of_dig {c : Char} {t : List Char} (h : isDig c = true) :
    splitSign (c :: t) = (false, c :: t) := by
  obtain ⟨h1, h2⟩ := isDig_bounds h
  rw [splitSign_cons, if_neg (by omega), if_neg (by omega)]

theorem underscoresOK_nil (prev : Option Char) : underscoresOK prev [] = true := rfl

theorem underscoresOK_cons (prev : Option Char) (c : Char) (rest : List Char) :
    underscoresOK prev (c :: rest) =
      if c.toNat = 95 then
        (match prev with | some p => isDig p | none => false) &&
        (match rest with | d :: _ => isDig d | [] => false) &&
        underscoresOK (some c) rest
      else underscoresOK (some c) rest := rfl

theorem underscoresOK_no {l : List Char} (h : ∀ c ∈ l, c.toNat ≠ 95) :
    ∀ prev, underscoresOK prev l = true := by
  induction l with
  | nil => intro prev; rfl
  | cons c cs ih =>
    intro prev
    rw [underscoresOK_cons, if_neg (h c (by simp))]
    exact ih (fun d hd => h d (by simp [hd])) (some c)

theorem map_toLowerCh_fix {l : List Char}
    (h : ∀ c ∈ l, c.toNat < 65 ∨ 90 < c.toNat) : l.map toLowerCh = l := by
  induction l with
  | nil => rfl
  | cons c cs ih =>
    rw [List.map_cons, toLowerCh_fix (h c (by simp))]
    rw [ih (fun d hd => h d (by simp [hd]))]

theorem scanMantissa_digits {A : List Char} (hne : A ≠ [])
    (hd : ∀ c ∈ A, isDig c = true) :
    scanMantissa A = some ⟨digitsVal A, 0, 0, false, 0⟩ := by
  simp only [scanMantissa, takeWhile_all hd, dropWhile_all hd]
  simp [hne]

theorem scanMantissa_dec {A B : List Char} {c0 : Char} (hA : A ≠ [])
    (hdA : ∀ c ∈ A, isDig c = true) (hB : B ≠ [])
    (hdB : ∀ c ∈ B, isDig c = true) (hc : c0.toNat = 46) :
    scanMantissa (A ++ c0 :: B) = some ⟨digitsVal A, digitsVal B, B.length, false, 0⟩ := by
  have hc0 : isDig c0 = false := by simp [isDig, hc]
  simp only [scanMantissa, takeWhile_append_of hdA hc0, dropWhile_append_of hdA hc0]
  simp only [if_pos hc, takeWhile_all hdB, dropWhile_all hdB]
  simp [hA]

theorem pyScanFloat_digits {A : List Char} (hne : A ≠ [])
    (hd : ∀ c ∈ A, isDig c = true) :
    pyScanFloat A = some (.num false ⟨digitsVal A, 0, 0, false, 0⟩) := by
  obtain ⟨c, t, rfl⟩ : ∃ c t, A = c :: t := by
    cases A with
    | nil => exact absurd rfl hne
    | cons c t => exact ⟨c, t, rfl⟩
  have hspace : ∀ x ∈ c :: t, isPySpace x = false :=
    fun x hx => isDig_not_space (hd x hx)
  have hcb := isDig_bounds (hd c (by simp))
  have hmap : (c :: t).map toLowerCh = c :: t :=
    map_toLowerCh_fix (fun x hx => by
      have := isDig_bounds (hd x hx); omega)
  have h1 : (c :: t) ≠ ['i', 'n', 'f'] := by
    intro h; injection h with he _; rw [he] at hcb; exact absurd hcb (by decide)
  have h2 : (c :: t) ≠ ['i', 'n', 'f', 'i', 'n', 'i', 't', 'y'] := by
    intro h; injection h with he _; rw [he] at hcb; exact absurd hcb (by decide)
  have h3 : (c :: t) ≠ ['n', 'a', 'n'] := by
    intro h; injection h with he _; rw [he] at hcb; exact absurd hcb (by decide)
  have hu : underscoresOK none (c :: t) = true :=
    underscoresOK_no (fun x hx => by
      have := isDig_bounds (hd x hx); omega) none
  have hflt : (c :: t).filter (fun x => !(x.toNat = 95 : Bool)) = c :: t :=
    List.filter_eq_self.mpr (fun x hx => by
      have := isDig_bounds (hd x hx); simp; omega)
  simp only [pyScanFloat, pyStrip_eq_self hspace, splitSign_of_dig (hd c (by simp)),
    hmap, hu, hflt, scanMantissa_digits hne hd]
  simp [h1, h2, h3]

theorem pyScanFloat_dec {A B : List Char} {c0 : Char} (hA : A ≠ [])
    (hdA : ∀ c ∈ A, isDig c = true) (hB : B ≠ [])
    (hdB : ∀ c ∈ B, isDig c = true) (hc : c0.toNat = 46) :
    pyScanFloat (A ++ c0 :: B) =
      some (.num false ⟨digitsVal A, digitsVal B, B.length, false, 0⟩) := by
  obtain ⟨c, t, rfl⟩ : ∃ c t, A = c :: t := by
    cases A with
    | nil => exact absurd rfl hA
    | cons c t => exact ⟨c, t, rfl⟩
  have hmem : ∀ x ∈ (c :: t) ++ c0 :: B, isDig x = true ∨ x.toNat = 46 := by
    intro x hx
    rcases List.mem_append.mp hx with h | h
    · exact Or.inl (hdA x h)
    · rcases List.mem_cons.mp h with h | h
      · rw [h]; exact Or.inr hc
      · exact Or.inl (hdB x h)
  have hspace : ∀ x ∈ (c :: t) ++ c0 :: B, isPySpace x = false := by
    intro x hx
    rcases hmem x hx with h | h
    · exact isDig_not_space h
    · simp [isPySpace, h]
  have hcb := isDig_bounds (hdA c (by simp))
  have hmap : ((c :: t) ++ c0 :: B).map toLowerCh = (c :: t) ++ c0 :: B :=
    map_toLowerCh_fix (fun x hx => by
      rcases hmem x hx with h | h
      · have := isDig_bounds h; omega
      · omega)
  have hu : underscoresOK none ((c :: t) ++ c0 :: B) = true :=
    underscoresOK_no (fun x hx => by
      rcases hmem x hx with h | h
      · have := isDig_bounds h; omega
      · omega) none
  have hflt : ((c :: t) ++ c0 :: B).filter (fun x => !(x.toNat = 95 : Bool)) =
      (c :: t) ++ c0 :: B :=
    List.filter_eq_self.mpr (fun x hx => by
      rcases hmem x hx with h | h
      · have := isDig_bounds h; simp; omega
      · simp; omega)
  have h1 : (c :: t) ++ c0 :: B ≠ ['i', 'n', 'f'] := by
    intro h
    rw [List.cons_append] at h
    injection h with he _
    rw [he] at hcb; exact absurd hcb (by decide)
  have h2 : (c :: t) ++ c0 :: B ≠ ['i', 'n', 'f', 'i', 'n', 'i', 't', 'y'] := by
    intro h
    rw [List.cons_append] at h
    injection h with he _
    rw [he] at hcb; exact absurd hcb (by decide)
  have h3 : (c :: t) ++ c0 :: B ≠ ['n', 'a', 'n'] := by
    intro h
    rw [List.cons_append] at h
    injection h with he _
    rw [he] at hcb; exact absurd hcb (by decide)
  have hsign : splitSign ((c :: t) ++ c0 :: B) = (false, (c :: t) ++ c0 :: B) := by
    rw [List.cons_append, splitSign_of_dig (hdA c (by simp))]
  have hci : c ≠ 'i' := by
    intro he; rw [he] at hcb; exact absurd hcb (by decide)
  have hcn : c ≠ 'n' := by
    intro he; rw [he] at hcb; exact absurd hcb (by decide)
  simp only [pyScanFloat, pyStrip_eq_self hspace, hsign, hmap, hu, hflt,
    scanMantissa_dec hA hdA hB hdB hc]
  simp [h1, h2, h3, hci, hcn]

theorem partsVal_nat (n : ℕ) : partsVal ⟨n, 0, 0, false, 0⟩ = (n : ℚ) := by
  simp [partsVal]

theorem partsVal_dec (a b k : ℕ) :
    partsVal ⟨a, b, k, false, 0⟩ = (a : ℚ) + (b : ℚ) / 10 ^ k := by
  simp [partsVal]

theorem pythonFloat_of_scan {l : List Char} {neg : Bool} {p : FloatParts}
    (h : pyScanFloat l = some (.num neg p)) :
    pythonFloat l = some (.fin (if neg then -partsVal p else partsVal p)) := by
  simp [pythonFloat, h]

theorem pythonFloat_digits {A : List Char} (hne : A ≠ [])
    (hd : ∀ c ∈ A, isDig c = true) :
    pythonFloat A = some (.fin (digitsVal A : ℚ)) := by
  rw [pythonFloat_of_scan (pyScanFloat_digits hne hd)]
  simp [partsVal_nat]

theorem pythonFloat_dec {A B : List Char} {c0 : Char} (hA : A ≠ [])
    (hdA : ∀ c ∈ A, isDig c = true) (hB : B ≠ [])
    (hdB : ∀ c ∈ B, isDig c = true) (hc : c0.toNat = 46) :
    pythonFloat (A ++ c0 :: B) =
      some (.fin ((digitsVal A : ℚ) + (digitsVal B : ℚ) / 10 ^ B.length)) := by
  rw [pythonFloat_of_scan (pyScanFloat_dec hA hdA hB hdB hc)]
  simp [partsVal_dec]

/- ## Format-side lemmas -/

theorem bareMatch_colon {A : List Char} {c0 : Char} {R : List Char}
    (hdA : ∀ c ∈ A, isDig c = true) (hc : c0.toNat = 58) :
    bareMatch (A ++ c0 :: R) = false := by
  have hc0 : isDig c0 = false := by simp [isDig, hc]
  simp only [bareMatch, takeWhile_append_of hdA hc0, dropWhile_append_of hdA hc0]
  have : (c0.toNat = 46) = False := by simp [hc]
  simp [this]

theorem pyMod_nonneg {a b : ℚ} (hb : 0 < b) (ha : 0 ≤ a) : 0 ≤ pyMod a b := by
  have h2 : (↑⌊a / b⌋ : ℚ) ≤ a / b := Int.floor_le _
  have h3 : b * (↑⌊a / b⌋ : ℚ) ≤ b * (a / b) :=
    mul_le_mul_of_nonneg_left h2 hb.le
  rw [mul_div_cancel₀ a hb.ne'] at h3
  rw [pyMod]
  linarith

theorem floor_div_nonneg {a b : ℚ} (hb : 0 < b) (ha : 0 ≤ a) :
    0 ≤ ⌊a / b⌋ := by
  rw [Int.le_floor]
  positivity

theorem round_mul_nonneg {a : ℚ} (ha : 0 ≤ a) : 0 ≤ round (a * 1000) := by
  rw [round_eq, Int.le_floor]
  push_cast
  nlinarith

theorem fmt_decomp (x : ℚ) :
    3600 * (⌊x / 3600⌋ : ℚ) + 60 * (⌊pyMod x 3600 / 60⌋ : ℚ) + pyMod x 60 = x := by
  have hkey : ⌊pyMod x 3600 / 60⌋ = ⌊x / 60⌋ - 60 * ⌊x / 3600⌋ := by
    have h1 : pyMod x 3600 / 60 = x / 60 - ((60 * ⌊x / 3600⌋ : ℤ) : ℚ) := by
      rw [pyMod]
      push_cast
      ring
    rw [h1, Int.floor_sub_int]
  rw [hkey, pyMod]
  push_cast
  ring

theorem intPad2_nonneg {n : ℤ} (h : 0 ≤ n) :
    intPad2 n = leftPad 2 (digitsOf n.toNat) := by
  rw [intPad2, if_neg (by omega)]

theorem fmt63Z_nonneg {s3 : ℤ} (h : 0 ≤ s3) :
    fmt63Z s3 = leftPad 2 (digitsOf (s3.toNat / 1000)) ++
      '.' :: leftPad 3 (digitsOf (s3.toNat % 1000)) := by
  rw [fmt63Z, if_neg (by omega)]

theorem natCast_div_mod_1000 (n : ℕ) :
    ((n / 1000 : ℕ) : ℚ) + ((n % 1000 : ℕ) : ℚ) / 10 ^ 3 = (n : ℚ) / 1000 := by
  have hnm : (1000 * (n / 1000) + n % 1000 : ℕ) = n := Nat.div_add_mod n 1000
  have hq : (1000 : ℚ) * ((n / 1000 : ℕ) : ℚ) + ((n % 1000 : ℕ) : ℚ) = (n : ℚ) := by
    exact_mod_cast congrArg (fun k : ℕ => (k : ℚ)) hnm
  rw [show ((10 : ℚ) ^ 3 = 1000) by norm_num]
  linarith

/- ## Round-trip evaluation of parse after format -/

theorem parse_format_eval (x : ℚ) (hx : 0 ≤ x) :
    parse_time (format_time x) =
      some (.fin ((⌊x / 3600⌋ : ℚ) * 3600 + (⌊pyMod x 3600 / 60⌋ : ℚ) * 60 +
        (round (pyMod x 60 * 1000) : ℚ) / 1000)) := by
  have hH0 : (0 : ℤ) ≤ ⌊x / 3600⌋ := floor_div_nonneg (by norm_num) hx
  have hM0 : (0 : ℤ) ≤ ⌊pyMod x 3600 / 60⌋ :=
    floor_div_nonneg (by norm_num) (pyMod_nonneg (by norm_num) hx)
  have hs30 : (0 : ℤ) ≤ round (pyMod x 60 * 1000) :=
    round_mul_nonneg (pyMod_nonneg (by norm_num) hx)
  set H := ⌊x / 3600⌋ with hHdef
  set M := ⌊pyMod x 3600 / 60⌋ with hMdef
  set s3 := round (pyMod x 60 * 1000) with hs3def
  set A := leftPad 2 (digitsOf H.toNat) with hAdef
  set Bm := leftPad 2 (digitsOf M.toNat) with hBdef
  set C1 := leftPad 2 (digitsOf (s3.toNat / 1000)) with hC1def
  set C2 := leftPad 3 (digitsOf (s3.toNat % 1000)) with hC2def
  have hfmt : fmtChars x = A ++ ':' :: (Bm ++ ':' :: (C1 ++ '.' :: C2)) := by
    rw [fmtChars, ratFmt63, intPad2_nonneg hH0, intPad2_nonneg hM0,
      fmt63Z_nonneg hs30]
    simp [List.append_assoc]
  have hdA : ∀ c ∈ A, isDig c = true := leftPad_all_dig (digitsOf_all_dig _)
  have hdB : ∀ c ∈ Bm, isDig c = true := leftPad_all_dig (digitsOf_all_dig _)
  have hdC1 : ∀ c ∈ C1, isDig c = true := leftPad_all_dig (digitsOf_all_dig _)
  have hdC2 : ∀ c ∈ C2, isDig c = true := leftPad_all_dig (digitsOf_all_dig _)
  have hAne : A ≠ [] := leftPad_ne_nil (digitsOf_ne_nil _)
  have hBne : Bm ≠ [] := leftPad_ne_nil (digitsOf_ne_nil _)
  have hC1ne : C1 ≠ [] := leftPad_ne_nil (digitsOf_ne_nil _)
  have hC2ne : C2 ≠ [] := leftPad_ne_nil (digitsOf_ne_nil _)
  have hC2len : C2.length = 3 := by
    apply leftPad_length
    apply digitsOf_len_le
    · have : s3.toNat % 1000 < 1000 := Nat.mod_lt _ (by norm_num)
      norm_num
      omega
    · norm_num
  have hdC : ∀ c ∈ C1 ++ '.' :: C2, isDig c = true ∨ c.toNat = 46 := by
    intro c hc
    rcases List.mem_append.mp hc with h | h
    · exact Or.inl (hdC1 c h)
    · rcases List.mem_cons.mp h with h | h
      · rw [h]; exact Or.inr (by decide)
      · exact Or.inl (hdC2 c h)
  have hspace : ∀ c ∈ fmtChars x, isPySpace c = false := by
    rw [hfmt]
    intro c hc
    rcases List.mem_append.mp hc with h | h
    · exact isDig_not_space (hdA c h)
    · rcases List.mem_cons.mp h with h | h
      · rw [h]; decide
      · rcases List.mem_append.mp h with h | h
        · exact isDig_not_space (hdB c h)
        · rcases List.mem_cons.mp h with h | h
          · rw [h]; decide
          · rcases hdC c h with h2 | h2
            · exact isDig_not_space h2
            · simp [isPySpace, h2]
  have hcolon : (':').toNat = 58 := by decide
  have hbare : bareMatch (fmtChars x) = false := by
    rw [hfmt]
    exact bareMatch_colon hdA hcolon
  have hsplit : splitCols (fmtChars x) = [A, Bm, C1 ++ '.' :: C2] := by
    rw [hfmt]
    rw [splitCols_append (fun c hc => by have := isDig_bounds (hdA c hc); omega)
      hcolon]
    rw [splitCols_append (fun c hc => by have := isDig_bounds (hdB c hc); omega)
      hcolon]
    rw [splitCols_no_colon (fun c hc => by
      rcases hdC c hc with h | h
      · have := isDig_bounds h; omega
      · omega)]
  have hfA : pythonFloat A = some (.fin ((H.toNat : ℚ))) := by
    rw [pythonFloat_digits hAne hdA, hAdef, digitsVal_leftPad_digitsOf]
  have hfB : pythonFloat Bm = some (.fin ((M.toNat : ℚ))) := by
    rw [pythonFloat_digits hBne hdB, hBdef, digitsVal_leftPad_digitsOf]
  have hfC : pythonFloat (C1 ++ '.' :: C2) =
      some (.fin ((s3.toNat : ℚ) / 1000)) := by
    rw [pythonFloat_dec hC1ne hdC1 hC2ne hdC2 (by decide), hC2len, hC1def,
      hC2def, digitsVal_leftPad_digitsOf, digitsVal_leftPad_digitsOf,
      natCast_div_mod_1000]
  have hdata : (format_time x).data = fmtChars x := rfl
  rw [parse_time, hdata, pyStrip_eq_self hspace, parseTimeChars]
  rw [if_neg (by simp [hbare])]
  rw [hsplit]
  simp only [List.map_cons, List.map_nil, hfA, hfB, hfC]
  simp only [PyF.scaleMul, PyF.add]
  have hHc : ((H.toNat : ℚ)) = (H : ℚ) := by
    exact_mod_cast congrArg (fun z : ℤ => (z : ℚ)) (Int.toNat_of_nonneg hH0)
  have hMc : ((M.toNat : ℚ)) = (M : ℚ) := by
    exact_mod_cast congrArg (fun z : ℤ => (z : ℚ)) (Int.toNat_of_nonneg hM0)
  have hsc : ((s3.toNat : ℚ)) = (s3 : ℚ) := by
    exact_mod_cast congrArg (fun z : ℤ => (z : ℚ)) (Int.toNat_of_nonneg hs30)
  rw [hHc, hMc, hsc]

/- ## Claim theorems -/

/-- C4: `parse_time` maps a bare number to seconds and applies positional
weights in the colon grammars: `parse("10") = 10.0`, `parse("1:30") = 90.0`,
`parse("1:30:45") = 5445.0`. -/
theorem C4_parse_time_examples :
    parse_time "10" = some (.fin 10) ∧ parse_time "1:30" = some (.fin 90) ∧
    parse_time "1:30:45" = some (.fin 5445) := by
  refine ⟨?_, ?_, ?_⟩
  · have h1 : pyStrip "10".data = "10".data := by decide
    have h2 : bareMatch "10".data = true := by decide
    have h3 : pyScanFloat "10".data = some (.num false ⟨10, 0, 0, false, 0⟩) := by
      decide
    rw [parse_time, h1, parseTimeChars, if_pos h2, pythonFloat_of_scan h3]
    norm_num [partsVal]
  · have h1 : pyStrip "1:30".data = "1:30".data := by decide
    have h2 : bareMatch "1:30".data = false := by decide
    have h3 : splitCols "1:30".data = ["1".data, "30".data] := by decide
    have h4 : pyScanFloat "1".data = some (.num false ⟨1, 0, 0, false, 0⟩) := by
      decide
    have h5 : pyScanFloat "30".data = some (.num false ⟨30, 0, 0, false, 0⟩) := by
      decide
    rw [parse_time, h1, parseTimeChars, if_neg (by simp [h2]), h3]
    simp only [List.map_cons, List.map_nil, pythonFloat_of_scan h4,
      pythonFloat_of_scan h5]
    simp only [PyF.scaleMul, PyF.add, if_neg Bool.false_ne_true]
    norm_num [partsVal]
  · have h1 : pyStrip "1:30:45".data = "1:30:45".data := by decide
    have h2 : bareMatch "1:30:45".data = false := by decide
    have h3 : splitCols "1:30:45".data = ["1".data, "30".data, "45".data] := by
      decide
    have h4 : pyScanFloat "1".data = some (.num false ⟨1, 0, 0, false, 0⟩) := by
      decide
    have h5 : pyScanFloat "30".data = some (.num false ⟨30, 0, 0, false, 0⟩) := by
      decide
    have h6 : pyScanFloat "45".data = some (.num false ⟨45, 0, 0, false, 0⟩) := by
      decide
    rw [parse_time, h1, parseTimeChars, if_neg (by simp [h2]), h3]
    simp only [List.map_cons, List.map_nil, pythonFloat_of_scan h4,
      pythonFloat_of_scan h5, pythonFloat_of_scan h6]
    simp only [PyF.scaleMul, PyF.add, if_neg Bool.false_ne_true]
    norm_num [partsVal]

/-- C10: the colon grammars accept fractional components in every position:
`parse("1:30.5") = 90.5` and `parse("1.5:30") = 120.0`. -/
theorem C10_fractional_components :
    parse_time "1:30.5" = some (.fin (181 / 2)) ∧
    parse_time "1.5:30" = some (.fin 120) := by
  constructor
  · have h1 : pyStrip "1:30.5".data = "1:30.5".data := by decide
    have h2 : bareMatch "1:30.5".data = false := by decide
    have h3 : splitCols "1:30.5".data = ["1".data, "30.5".data] := by decide
    have h4 : pyScanFloat "1".data = some (.num false ⟨1, 0, 0, false, 0⟩) := by
      decide
    have h5 : pyScanFloat "30.5".data = some (.num false ⟨30, 5, 1, false, 0⟩) := by
      decide
    rw [parse_time, h1, parseTimeChars, if_neg (by simp [h2]), h3]
    simp only [List.map_cons, List.map_nil, pythonFloat_of_scan h4,
      pythonFloat_of_scan h5]
    simp only [PyF.scaleMul, PyF.add, if_neg Bool.false_ne_true]
    norm_num [partsVal]
  · have h1 : pyStrip "1.5:30".data = "1.5:30".data := by decide
    have h2 : bareMatch "1.5:30".data = false := by decide
    have h3 : splitCols "1.5:30".data = ["1.5".data, "30".data] := by decide
    have h4 : pyScanFloat "1.5".data = some (.num false ⟨1, 5, 1, false, 0⟩) := by
      decide
    have h5 : pyScanFloat "30".data = some (.num false ⟨30, 0, 0, false, 0⟩) := by
      decide
    rw [parse_time, h1, parseTimeChars, if_neg (by simp [h2]), h3]
    simp only [List.map_cons, List.map_nil, pythonFloat_of_scan h4,
      pythonFloat_of_scan h5]
    simp only [PyF.scaleMul, PyF.add, if_neg Bool.false_ne_true]
    norm_num [partsVal]

/-- C1: for every non-negative `x`, formatting with `format_time` and parsing
back with `parse_time` yields a value within one millisecond of `x`. -/
theorem C1_roundtrip_millisecond (x : ℚ) (hx : 0 ≤ x) :
    ∃ y : ℚ, parse_time (format_time x) = some (.fin y) ∧
      |y - x| ≤ 1 / 1000 := by
  refine ⟨_, parse_format_eval x hx, ?_⟩
  have hd := fmt_decomp x
  have hr : |pyMod x 60 * 1000 - (round (pyMod x 60 * 1000) : ℚ)| ≤ 1 / 2 :=
    abs_sub_round _
  rw [abs_le] at hr ⊢
  constructor <;> nlinarith [hr.1, hr.2]

/-- C1 witness: the round-trip theorem applied at `x = 90.5`. -/
theorem C1_roundtrip_millisecond_witness :
    0 ≤ (181 / 2 : ℚ) ∧
    ∃ y : ℚ, parse_time (format_time (181 / 2)) = some (.fin y) ∧
      |y - 181 / 2| ≤ 1 / 1000 :=
  ⟨by norm_num, C1_roundtrip_millisecond (181 / 2) (by norm_num)⟩

theorem bareMatch_isSome {l : List Char} (h : bareMatch l = true) :
    ∃ v, pythonFloat l = some v := by
  have hd : ∀ c ∈ l.takeWhile isDig, isDig c = true :=
    fun c hc => List.mem_takeWhile_imp hc
  simp only [bareMatch] at h
  rcases hr : l.dropWhile isDig with _ | ⟨c, fr⟩
  · rw [hr] at h
    simp at h
    have hleq : l = l.takeWhile isDig := by
      conv_lhs => rw [← List.takeWhile_append_dropWhile (p := isDig) (l := l)]
      rw [hr, List.append_nil]
    obtain ⟨hl, _⟩ := h
    have hip : l.takeWhile isDig ≠ [] := by
      rw [← hleq]
      intro h0
      rw [h0] at hl
      simp at hl
    rw [hleq]
    exact ⟨_, pythonFloat_digits hip hd⟩
  · rw [hr] at h
    simp at h
    obtain ⟨hip, hc, hfrne, hfr⟩ := h
    obtain ⟨hl, hdig⟩ := hip
    have hipne : l.takeWhile isDig ≠ [] := by
      intro h0
      rw [List.takeWhile_eq_nil_iff] at h0
      exact absurd hdig (by simpa using h0 hl)
    have hleq : l = l.takeWhile isDig ++ c :: fr := by
      conv_lhs => rw [← List.takeWhile_append_dropWhile (p := isDig) (l := l)]
      rw [hr]
    rw [hleq]
    exact ⟨_, pythonFloat_dec hipne hd hfrne hfr hc⟩

/-- C2 counterexample: a colon form with a negative component does not raise:
`parse_time("-1:30")` returns `-30.0`, because `float("-1")` accepts the
sign, refuting the claim that such inputs fail. -/
theorem C2_negative_component_accepted : parse_time "-1:30" = some (.fin (-30)) := by
  have h1 : pyStrip "-1:30".data = "-1:30".data := by decide
  have h2 : bareMatch "-1:30".data = false := by decide
  have h3 : splitCols "-1:30".data = ["-1".data, "30".data] := by decide
  have h4 : pyScanFloat "-1".data = some (.num true ⟨1, 0, 0, false, 0⟩) := by decide
  have h5 : pyScanFloat "30".data = some (.num false ⟨30, 0, 0, false, 0⟩) := by decide
  rw [parse_time, h1, parseTimeChars, if_neg (by simp [h2]), h3]
  simp only [List.map_cons, List.map_nil, pythonFloat_of_scan h4,
    pythonFloat_of_scan h5]
  simp only [PyF.scaleMul, PyF.add]
  norm_num [partsVal]

/-- C2 (amended): `parse_time` raises exactly on inputs that match none of
the three grammars or contain a component rejected by `float()`; negative
components in colon forms are accepted.  In particular `parse("")`,
`parse("1:2:3:4")` and `parse("abc")` all fail. -/
theorem C2_error_characterisation :
    parse_time "" = none ∧ parse_time "1:2:3:4" = none ∧
    parse_time "abc" = none ∧
    ∀ s : String, parse_time s = none ↔
      (bareMatch (pyStrip s.data) = false ∧
        match splitCols (pyStrip s.data) with
        | [a, b] => pythonFloat a = none ∨ pythonFloat b = none
        | [a, b, c] =>
          pythonFloat a = none ∨ pythonFloat b = none ∨ pythonFloat c = none
        | _ => True) := by
  refine ⟨by decide, by decide, by decide, ?_⟩
  intro s
  rw [parse_time, parseTimeChars]
  by_cases hb : bareMatch (pyStrip s.data) = true
  · rw [if_pos hb]
    obtain ⟨v, hv⟩ := bareMatch_isSome hb
    simp [hv, hb]
  · have hb' : bareMatch (pyStrip s.data) = false := by
      simpa using hb
    rw [if_neg hb]
    rcases hsp : splitCols (pyStrip s.data) with _ | ⟨a, _ | ⟨b, _ | ⟨c, _ | ⟨d, rest⟩⟩⟩⟩
    · simp [hb']
    · rcases ha : pythonFloat a with _ | va <;> simp [hb']
    · rcases ha : pythonFloat a with _ | va <;>
        rcases hb2 : pythonFloat b with _ | vb <;> simp [hb', ha, hb2]
    · rcases ha : pythonFloat a with _ | va <;>
        rcases hb2 : pythonFloat b with _ | vb <;>
        rcases hc2 : pythonFloat c with _ | vc <;> simp [hb', ha, hb2, hc2]
    · simp [hb']

theorem parseTimeChars_nil : parseTimeChars [] = none := by decide

/-- C3 counterexample: with a known total duration of 0.0, the start time 5
parses, is >= the total duration, yet is accepted, because line 157 tests
the truthiness of `total_duration` and `0.0` is falsy.  This refutes the
claim for a known total duration of 0.0. -/
theorem C3_zero_total_accepts_large_start :
    parse_time "5" = some (.fin 5) ∧ (PyF.fin 0).leb (.fin 5) = true ∧
    startAccepted (some (.fin 0)) "5" = true := by
  have h1 : pyStrip "5".data = "5".data := by decide
  have h2 : bareMatch "5".data = true := by decide
  have h3 : pyScanFloat "5".data = some (.num false ⟨5, 0, 0, false, 0⟩) := by decide
  have hp : parse_time "5" = some (.fin 5) := by
    rw [parse_time, h1, parseTimeChars, if_pos h2, pythonFloat_of_scan h3]
    norm_num [partsVal]
  refine ⟨hp, by simp [PyF.leb], ?_⟩
  have hp' : parseTimeChars "5".data = some (.fin 5) := by
    rw [parse_time, h1] at hp
    exact hp
  rw [startAccepted, h1]
  simp only [hp']
  simp [PyF.ltb, startBoundHit, truthy]

/-- C3 (amended): when the total duration is known and nonzero, a start time
is rejected iff it fails to parse, is negative, or is >= the total duration
(float comparisons); an end time is rejected iff it fails to parse, is <=
the accepted start value, or is > the total duration. -/
theorem C3_validation_characterisation (d : ℚ) (hd : d ≠ 0) (startV : PyF) (rawS rawE : String) :
    (startAccepted (some (.fin d)) rawS = false ↔
      (parseTimeChars (pyStrip rawS.data) = none ∨
        ∃ v, parseTimeChars (pyStrip rawS.data) = some v ∧
          (v.ltb (.fin 0) = true ∨ (PyF.fin d).leb v = true))) ∧
    (endAccepted (some (.fin d)) startV rawE = false ↔
      (parseTimeChars (pyStrip rawE.data) = none ∨
        ∃ v, parseTimeChars (pyStrip rawE.data) = some v ∧
          (v.leb startV = true ∨ (PyF.fin d).ltb v = true))) := by
  constructor
  · rw [startAccepted]
    by_cases hemp : (pyStrip rawS.data).isEmpty
    · have hnil : pyStrip rawS.data = [] := by
        simpa using hemp
      rw [hnil]
      simp [parseTimeChars_nil]
    · rw [if_neg hemp]
      rcases hp : parseTimeChars (pyStrip rawS.data) with _ | v
      · simp
      · simp only [hp]
        rcases hlt : v.ltb (.fin 0) with _ | _
        · rcases hle : (PyF.fin d).leb v with _ | _
          · simp [hlt, hle, startBoundHit, truthy, hd]
          · simp [hlt, hle, startBoundHit, truthy, hd]
        · simp [hlt, startBoundHit, truthy, hd]
  · rw [endAccepted]
    by_cases hemp : (pyStrip rawE.data).isEmpty
    · have hnil : pyStrip rawE.data = [] := by
        simpa using hemp
      rw [hnil]
      simp [parseTimeChars_nil]
    · rw [if_neg hemp]
      rcases hp : parseTimeChars (pyStrip rawE.data) with _ | v
      · simp
      · simp only [hp]
        rcases hle : v.leb startV with _ | _
        · rcases hlt : (PyF.fin d).ltb v with _ | _
          · simp [hle, hlt, endBoundHit, truthy, hd]
          · simp [hle, hlt, endBoundHit, truthy, hd]
        · simp [hle, endBoundHit, truthy, hd]

/-- C3 witness: the amended validation theorem applied at total duration 100
and raw start input "150", which is rejected. -/
theorem C3_validation_characterisation_witness :
    startAccepted (some (.fin 100)) "150" = false := by
  apply (C3_validation_characterisation 100 (by norm_num) (.fin 5) "150" "x").1.mpr
  refine Or.inr ⟨.fin 150, ?_, Or.inr ?_⟩
  · have h1 : pyStrip "150".data = "150".data := by decide
    have h2 : bareMatch "150".data = true := by decide
    have h3 : pyScanFloat "150".data = some (.num false ⟨150, 0, 0, false, 0⟩) := by
      decide
    rw [h1, parseTimeChars, if_pos h2, pythonFloat_of_scan h3]
    norm_num [partsVal]
  · simp [PyF.leb]
    norm_num

/-- C9: a probed total duration of exactly 0.0 behaves like an unknown one:
the duration is not reported (line 139) and the start/end upper-bound checks
are skipped (lines 157, 179), because the guards test truthiness and `0.0`
is falsy. -/
theorem C9_zero_duration_unknown :
    durationReported (some (.fin 0)) = false ∧
    (∀ raw, startAccepted (some (.fin 0)) raw = startAccepted none raw) ∧
    (∀ startV raw,
      endAccepted (some (.fin 0)) startV raw = endAccepted none startV raw) := by
  have hbs : ∀ v, startBoundHit (some (.fin 0)) v = false := by
    intro v; simp [startBoundHit, truthy]
  have hbs0 : ∀ v, startBoundHit none v = false := by
    intro v; simp [startBoundHit, truthy]
  have hbe : ∀ v, endBoundHit (some (.fin 0)) v = false := by
    intro v; simp [endBoundHit, truthy]
  have hbe0 : ∀ v, endBoundHit none v = false := by
    intro v; simp [endBoundHit, truthy]
  refine ⟨by simp [durationReported, truthy], ?_, ?_⟩
  · intro raw
    rw [startAccepted, startAccepted]
    rcases hp : parseTimeChars (pyStrip raw.data) with _ | v <;>
      simp [hp, hbs, hbs0]
  · intro startV raw
    rw [endAccepted, endAccepted]
    rcases hp : parseTimeChars (pyStrip raw.data) with _ | v <;>
      simp [hp, hbe, hbe0]

/-- C5 counterexample: when the probe executable is missing,
`get_media_duration` raises (`FileNotFoundError` is not in the `except`
clause), refuting the claim that it never raises to its caller. -/
theorem C5_toolmissing_raises : get_media_duration .toolMissing = .error "FileNotFoundError" := rfl

/-- C5 (amended): for every completed probe process, `get_media_duration`
returns an optional value and does not raise: the parsed stdout on exit
status 0 (`None` when stdout is non-numeric), `None` on a non-zero status;
only a missing probe executable raises. -/
theorem C5_probe_totality : ∀ (rc : ℤ) (out err : String),
    get_media_duration (.ran rc out err) =
      .ok (if rc = 0 then pythonFloat (pyStrip out.data) else none) := by
  intro rc out err
  by_cases h : rc = 0
  · rcases hp : pythonFloat (pyStrip out.data) with _ | v <;>
      simp [get_media_duration, h, hp]
  · simp [get_media_duration, h]

/-- C6: `get_output_filename` is
`{stem}_cut_{start}_to_{end}{original_extension}` with `:` replaced by `-`
in the formatted times; for `movie.mp4`, 10 s to 60 s, it yields
`movie_cut_00-00-10.000_to_00-01-00.000.mp4`. -/
theorem C6_output_filename :
    (∀ (p : String) (s e : ℚ), get_output_filename p s e =
      String.mk ((stemSuffix (pathNameOf p.data)).1 ++ "_cut_".data ++
        colonToDash (format_time s).data ++ "_to_".data ++
        colonToDash (format_time e).data ++ (stemSuffix (pathNameOf p.data)).2)) ∧
    get_output_filename "movie.mp4" 10 60 =
      "movie_cut_00-00-10.000_to_00-01-00.000.mp4" := by
  constructor
  · intro p s e
    rfl
  · have ha : fmtChars 10 = "00:00:10.000".data := by
      have h1 : (⌊(10 : ℚ) / 3600⌋ : ℤ) = 0 := by norm_num
      have h2 : pyMod (10 : ℚ) 3600 = 10 := by norm_num [pyMod]
      have h3 : (⌊(10 : ℚ) / 60⌋ : ℤ) = 0 := by norm_num
      have h4 : pyMod (10 : ℚ) 60 = 10 := by norm_num [pyMod]
      have h5 : round ((10 : ℚ) * 1000) = 10000 := by norm_num [round_eq]
      rw [fmtChars, h2, h4, h1, ratFmt63, h5, h3]
      decide
    have hb : fmtChars 60 = "00:01:00.000".data := by
      have h1 : (⌊(60 : ℚ) / 3600⌋ : ℤ) = 0 := by norm_num
      have h2 : pyMod (60 : ℚ) 3600 = 60 := by norm_num [pyMod]
      have h3 : (⌊(60 : ℚ) / 60⌋ : ℤ) = 1 := by norm_num
      have h4 : pyMod (60 : ℚ) 60 = 0 := by norm_num [pyMod]
      have h5 : round ((0 : ℚ) * 1000) = 0 := by norm_num [round_eq]
      rw [fmtChars, h2, h4, h1, ratFmt63, h5, h3]
      decide
    rw [get_output_filename, ha, hb]
    decide

/-- C7: if the confirmation input, stripped and lowercased, is neither "y"
nor "yes", the tail of `main` performs no cut invocation and returns exit
code 0. -/
theorem C7_decline_no_cut (raw : String) (run : List String → CutOutcome)
    (i o : String) (s e : ℚ)
    (h1 : (pyStrip raw.data).map toLowerCh ≠ "y".data)
    (h2 : (pyStrip raw.data).map toLowerCh ≠ "yes".data) :
    confirmAndCut raw run i o s e = (0, false) := by
  rw [confirmAndCut, if_neg]
  simp [confirmProceeds, h1, h2]

/-- C7 witness: the confirmation theorem applied at input "n". -/
theorem C7_decline_no_cut_witness :
    confirmAndCut "n" (fun _ => .ran 0 "" "") "a.mp4" "b.mp4" 0 1 = (0, false) :=
  C7_decline_no_cut "n" (fun _ => .ran 0 "" "") "a.mp4" "b.mp4" 0 1 (by decide) (by decide)

/-- C8: `cut_media` always returns a `(success, message)` pair:
`(True, "Success")` exactly on exit status 0, `(False, stderr)` on a
non-zero status, `(False, str(e))` when an exception is raised; no
exception escapes. -/
theorem C8_cut_media_total (run : List String → CutOutcome) (i o : String) (s e : ℚ) :
    (cut_media run i o s e = (true, "Success") ↔
      ∃ out err, run (buildCutCmd i o s e) = .ran 0 out err) ∧
    (∀ rc out err, run (buildCutCmd i o s e) = .ran rc out err → rc ≠ 0 →
      cut_media run i o s e = (false, err)) ∧
    (∀ m, run (buildCutCmd i o s e) = .raised m →
      cut_media run i o s e = (false, m)) := by
  rcases hr : run (buildCutCmd i o s e) with m | ⟨rc, out, err⟩
  · refine ⟨by simp [cut_media, hr], ?_, ?_⟩
    · intro rc out err h hne
      exact absurd h (by simp)
    · intro m' h
      injection h with hm
      subst hm
      simp [cut_media, hr]
  · refine ⟨?_, ?_, ?_⟩
    · by_cases h0 : rc = 0
      · subst h0
        simp [cut_media, hr]
      · simp [cut_media, hr, h0]
    · intro rc' out' err' h hne
      injection h with ha hb hc
      subst ha
      subst hb
      subst hc
      have hne' : rc ≠ 0 := hne
      simp [cut_media, hr, hne']
    · intro m h
      exact absurd h (by simp)

/-- C8 witness: `cut_media` applied to a run that exits with status 3. -/
theorem C8_cut_media_total_witness :
    cut_media (fun _ => .ran 3 "" "boom") "in.mp4" "out.mp4" 0 1 = (false, "boom") :=
  (C8_cut_media_total (fun _ => .ran 3 "" "boom") "in.mp4" "out.mp4" 0 1).2.1 3 "" "boom" rfl
    (by norm_num)
